import Mathlib

/-
  Shallow embedding of poismf (src/poismf.c): alternating Poisson matrix
  factorization over sparse count data. Doubles are modelled as exact
  rationals, dense k-vectors as lists of rationals, dense row-major matrices
  as lists of rows, and the CSR/CSC arrays as plain lists. The math-library
  logarithm is an abstract parameter. The two external bound-constrained
  minimizers (minimize_nonneg_cg and tnc) are not part of this source file,
  so they enter the embedding as explicit function parameters.
-/

namespace Poismf

abbrev Vec := List ℚ

abbrev Mat := List (List ℚ)

/-- Entry i of a vector, 0 outside the stored range. -/
def nth (v : Vec) (i : ℕ) : ℚ := v.getD i 0

/-- Row i of a row-major matrix (address M + i*k in the C code). -/
def getRow (M : Mat) (i : ℕ) : Vec := M.getD i []

/-- cblas_ddot over two k-vectors. -/
def ddot (x y : Vec) : ℚ := (List.zipWith (fun a b => a * b) x y).sum

/-- cblas_daxpy: returns alpha * x + y elementwise. -/
def daxpy (alpha : ℚ) (x y : Vec) : Vec :=
  List.zipWith (fun xi yi => alpha * xi + yi) x y

/-- cblas_dscal (and dscal_large on a k-vector): alpha * x elementwise. -/
def dscal (alpha : ℚ) (x : Vec) : Vec := x.map (fun xi => alpha * xi)

/-- The nonneg macro of poismf.c line 42: clip a scalar to be nonnegative. -/
def nonneg (x : ℚ) : ℚ := if x > 0 then x else 0

/-- A zero-initialized buffer of k doubles (memset to 0). -/
def zeros (k : ℕ) : Vec := List.replicate k 0

/-- Entry i of an index-pointer array. -/
def ptr (p : List ℕ) (i : ℕ) : ℕ := p.getD i 0

/-- The value slice Xr + Xr_indptr[i], of length Xr_indptr[i+1] - Xr_indptr[i]. -/
def sliceVals (vals : Vec) (indptr : List ℕ) (i : ℕ) : Vec :=
  (vals.drop (ptr indptr i)).take (ptr indptr (i + 1) - ptr indptr i)

/-- The index slice Xr_indices + Xr_indptr[i], same length. -/
def sliceInds (inds : List ℕ) (indptr : List ℕ) (i : ℕ) : List ℕ :=
  (inds.drop (ptr indptr i)).take (ptr indptr (i + 1) - ptr indptr i)

/-- sum_by_cols of poismf.c lines 54-60: out[col] = sum over rows of M[row][col]. -/
def sum_by_cols (M : Mat) (nrow k : ℕ) : Vec :=
  (List.range nrow).foldl (fun out row => daxpy 1 (getRow M row) out) (zeros k)

/-- adjustment_Bsum of poismf.c lines 62-100: for each row of the free
dimension, accumulate the fixed-matrix rows over that row's nonzero columns,
scale everything by w_mult - 1, then add the baseline Bsum into each row. -/
def adjustment_Bsum (B : Mat) (Bsum : Vec) (Xr_indices Xr_indptr : List ℕ)
    (dimA k : ℕ) (w_mult : ℚ) : Mat :=
  (List.range dimA).map (fun row =>
    let acc := (sliceInds Xr_indices Xr_indptr row).foldl
      (fun acc j => daxpy 1 (getRow B j) acc) (zeros k)
    daxpy 1 Bsum (dscal (w_mult - 1) acc))

/-- calc_grad_pgd of poismf.c lines 103-111: the ascent direction
sum over nonzeros of X[ix] / ddot(F[Xind[ix]], curr) * F[Xind[ix]]. -/
def calc_grad_pgd (curr : Vec) (F : Mat) (X : Vec) (Xind : List ℕ) (k : ℕ) : Vec :=
  (List.zip X Xind).foldl
    (fun out p => daxpy (p.1 / ddot (getRow F p.2) curr) (getRow F p.2) out)
    (zeros k)

/-- One inner update of one row inside pg_iteration (poismf.c lines 146-159):
a += step * grad; a += Bsum; a *= cnst_div; clip each coordinate. -/
def pg_update_row (B : Mat) (vals : Vec) (inds : List ℕ) (k : ℕ)
    (cnst_div : ℚ) (Bsum : Vec) (step_size : ℚ) (a : Vec) : Vec :=
  let g := calc_grad_pgd a B vals inds k
  let a1 := daxpy step_size g a
  let a2 := daxpy 1 Bsum a1
  (dscal cnst_div a2).map nonneg

/-- pg_iteration of poismf.c lines 117-162. step_size is first multiplied by
w_mult; each row gets its per-row correction row when w_mult is not 1, and
maxupd inner updates. -/
def pg_iteration (A B : Mat) (Xr : Vec) (Xr_indptr Xr_indices : List ℕ)
    (dimA k : ℕ) (cnst_div : ℚ) (cnst_sum : Vec) (Bsum_user : Mat)
    (step_size w_mult : ℚ) (maxupd : ℕ) : Mat :=
  let step := step_size * w_mult
  (List.range dimA).map (fun ia =>
    let Bsum := if w_mult = 1 then cnst_sum else getRow Bsum_user ia
    let vals := sliceVals Xr Xr_indptr ia
    let inds := sliceInds Xr_indices Xr_indptr ia
    Nat.iterate (pg_update_row B vals inds k cnst_div Bsum step) maxupd (getRow A ia))

/-- The fdata struct of poismf.h, with Xr and X_ind already holding the
nnz_this-long slices for the row being optimized. -/
structure Fdata where
  B : Mat
  Bsum : Vec
  Xr : Vec
  X_ind : List ℕ
  l2_reg : ℚ
  w_mult : ℚ
  k : ℕ

/-- calc_fun_single of poismf.c lines 165-179, with lg the libm logarithm. -/
def calc_fun_single (lg : ℚ → ℚ) (a_row : Vec) (d : Fdata) : ℚ :=
  let reg_term := ddot d.Bsum a_row + d.l2_reg * ddot a_row a_row
  let lsum := ((List.zip d.Xr d.X_ind).map
    (fun p => p.1 * lg (ddot a_row (getRow d.B p.2)))).sum
  reg_term - lsum * d.w_mult

/-- calc_grad_single of poismf.c lines 181-194: grad = Bsum; grad += 2*l2*a;
then subtract (x / ddot(a, B[col])) * B[col] over the nonzeros. -/
def calc_grad_single (a_row : Vec) (d : Fdata) : Vec :=
  (List.zip d.Xr d.X_ind).foldl
    (fun g p => daxpy (-p.1 / ddot a_row (getRow d.B p.2)) (getRow d.B p.2) g)
    (daxpy (2 * d.l2_reg) a_row d.Bsum)

/-- calc_grad_single_w of poismf.c lines 196-211: accumulate from zero,
scale by w_mult, then add Bsum and 2*l2*a. -/
def calc_grad_single_w (a_row : Vec) (d : Fdata) : Vec :=
  let g0 := (List.zip d.Xr d.X_ind).foldl
    (fun g p => daxpy (-p.1 / ddot a_row (getRow d.B p.2)) (getRow d.B p.2) g)
    (zeros d.k)
  daxpy (2 * d.l2_reg) a_row (daxpy 1 d.Bsum (dscal d.w_mult g0))

/-- calc_fun_and_grad of poismf.c lines 213-244, returning the pair
(function value, gradient). -/
def calc_fun_and_grad (lg : ℚ → ℚ) (a_row : Vec) (d : Fdata) : ℚ × Vec :=
  let pairs := List.zip d.Xr d.X_ind
  let grad0 := pairs.foldl
    (fun g p => daxpy (-p.1 / ddot a_row (getRow d.B p.2)) (getRow d.B p.2) g)
    (zeros d.k)
  let lsum := (pairs.map (fun p => p.1 * lg (ddot a_row (getRow d.B p.2)))).sum
  let grad1 := if d.w_mult = 1 then grad0 else dscal d.w_mult grad0
  let grad2 := daxpy 1 d.Bsum grad1
  let reg_term := ddot d.Bsum a_row
  let grad3 := daxpy (2 * d.l2_reg) a_row grad2
  (reg_term - lsum * d.w_mult, grad3)

/-- cg_iteration of poismf.c lines 246-285. Modelled from the spec:
minimize_nonneg_cg is an external nonnegative nonlinear conjugate-gradient
minimizer not contained in this source file (spec sections 4.4 and 6), so it
is a parameter mapping the per-row context and the current row to the new
row; limit_step, tolerances and the maxupd budget are absorbed into it. -/
def cg_iteration (solver : Fdata → Vec → Vec)
    (A B : Mat) (Xr : Vec) (Xr_indptr Xr_indices : List ℕ)
    (dimA k : ℕ) (Bsum : Vec) (l2_reg w_mult : ℚ) (Bsum_w : Mat) : Mat :=
  (List.range dimA).map (fun ia =>
    let d : Fdata :=
      { B := B
        Bsum := if w_mult = 1 then Bsum else getRow Bsum_w ia
        Xr := sliceVals Xr Xr_indptr ia
        X_ind := sliceInds Xr_indices Xr_indptr ia
        l2_reg := l2_reg, w_mult := w_mult, k := k }
    solver d (getRow A ia))

/-- tncg_iteration of poismf.c lines 287-333. Modelled from the spec: tnc is
the external bound-constrained truncated-Newton solver (spec sections 4.5
and 6), a parameter exactly as for cg_iteration. -/
def tncg_iteration (solver : Fdata → Vec → Vec)
    (A B : Mat) (Xr : Vec) (Xr_indptr Xr_indices : List ℕ)
    (dimA k : ℕ) (Bsum : Vec) (l2_reg w_mult : ℚ) (Bsum_w : Mat) : Mat :=
  (List.range dimA).map (fun ia =>
    let d : Fdata :=
      { B := B
        Bsum := if w_mult = 1 then Bsum else getRow Bsum_w ia
        Xr := sliceVals Xr Xr_indptr ia
        X_ind := sliceInds Xr_indices Xr_indptr ia
        l2_reg := l2_reg, w_mult := w_mult, k := k }
    solver d (getRow A ia))

inductive Method
  | pg
  | cg
  | tncg
deriving DecidableEq

/-- The heap buffers run_poismf may allocate (poismf.c lines 377-410). -/
inductive Buffer
  | cnst_sum
  | buffer_arr
  | Bsum_w
  | buffer_int
  | zeros_tncg
  | inf_tncg
deriving DecidableEq

/-- The buffers run_poismf requests for a given configuration: cnst_sum and
buffer_arr always, Bsum_w only when w_mult is not 1, the three tncg buffers
only for the tncg method. -/
def requestedBuffers (m : Method) (w_mult : ℚ) : List Buffer :=
  [Buffer.cnst_sum, Buffer.buffer_arr]
    ++ (if w_mult = 1 then [] else [Buffer.Bsum_w])
    ++ (if m = Method.tncg then [Buffer.buffer_int, Buffer.zeros_tncg, Buffer.inf_tncg] else [])

/-- The cleanup block (poismf.c lines 520-526) frees every buffer pointer;
pointers never allocated are NULL there and freeing them is a no-op. -/
def allBuffers : List Buffer :=
  [Buffer.cnst_sum, Buffer.buffer_arr, Buffer.buffer_int, Buffer.Bsum_w,
   Buffer.zeros_tncg, Buffer.inf_tncg]

/-- The caller-supplied arguments of run_poismf (poismf.c lines 368-374). -/
structure Args where
  A : Mat
  Xr : Vec
  Xr_indptr : List ℕ
  Xr_indices : List ℕ
  B : Mat
  Xc : Vec
  Xc_indptr : List ℕ
  Xc_indices : List ℕ
  dimA : ℕ
  dimB : ℕ
  k : ℕ
  l2_reg : ℚ
  l1_reg : ℚ
  w_mult : ℚ
  step_size : ℚ
  method : Method
  numiter : ℕ
  maxupd : ℕ

/-- The mutable state of the driver loop: the two factor matrices and the
current PG step size. -/
structure RunState where
  A : Mat
  B : Mat
  step : ℚ

/-- The A half-iteration of run_poismf (poismf.c lines 425-467): recompute
cnst_div and the column sums of B, add l1, recompute the weighted correction
when w_mult is not 1, then dispatch the selected solver over the rows of A.
In the pg case, note that after the w_mult-conditional scaling of lines
438-441 the code scales cnst_sum by -step_size a second time at line 442. -/
def a_half (cgS tnS : Fdata → Vec → Vec) (g : Args) (st : RunState) : RunState :=
  let cnst_div : ℚ := 1 / (1 + 2 * g.l2_reg * st.step)
  let cs0 := sum_by_cols st.B g.dimB g.k
  let cs1 := if g.l1_reg > 0 then cs0.map (fun v => v + g.l1_reg) else cs0
  let bw0 := if g.w_mult = 1 then [] else
    adjustment_Bsum st.B cs1 g.Xr_indices g.Xr_indptr g.dimA g.k g.w_mult
  match g.method with
  | Method.pg =>
    let cs2 := if g.w_mult = 1 then dscal (-st.step) cs1 else cs1
    let bw1 := if g.w_mult = 1 then bw0 else bw0.map (dscal (-st.step))
    let cs3 := dscal (-st.step) cs2
    { st with A := (pg_iteration st.A st.B g.Xr g.Xr_indptr g.Xr_indices
        g.dimA g.k cnst_div cs3 bw1 st.step g.w_mult g.maxupd) }
  | Method.cg =>
    { st with A := (cg_iteration cgS st.A st.B g.Xr g.Xr_indptr g.Xr_indices
        g.dimA g.k cs1 g.l2_reg g.w_mult bw0) }
  | Method.tncg =>
    { st with A := (tncg_iteration tnS st.A st.B g.Xr g.Xr_indptr g.Xr_indices
        g.dimA g.k cs1 g.l2_reg g.w_mult bw0) }

/-- The B half-iteration of run_poismf (poismf.c lines 473-517), the mirrored
procedure with B free and A fixed over the column-oriented view. cnst_div is
recomputed from the unchanged step, matching the value set at line 426. In
the pg case the step size is halved after the update (lines 493-495); in the
cg case the code passes the row-view value array Xr together with the
column-view offset and index arrays (line 501). -/
def b_half (cgS tnS : Fdata → Vec → Vec) (g : Args) (st : RunState) : RunState :=
  let cnst_div : ℚ := 1 / (1 + 2 * g.l2_reg * st.step)
  let cs0 := sum_by_cols st.A g.dimA g.k
  let cs1 := if g.l1_reg > 0 then cs0.map (fun v => v + g.l1_reg) else cs0
  let bw0 := if g.w_mult = 1 then [] else
    adjustment_Bsum st.A cs1 g.Xc_indices g.Xc_indptr g.dimB g.k g.w_mult
  match g.method with
  | Method.pg =>
    let cs2 := if g.w_mult = 1 then dscal (-st.step) cs1 else cs1
    let bw1 := if g.w_mult = 1 then bw0 else bw0.map (dscal (-st.step))
    { A := st.A
      B := (pg_iteration st.B st.A g.Xc g.Xc_indptr g.Xc_indices
        g.dimB g.k cnst_div cs2 bw1 st.step g.w_mult g.maxupd)
      step := st.step * (1 / 2) }
  | Method.cg =>
    { st with B := (cg_iteration cgS st.B st.A g.Xr g.Xc_indptr g.Xc_indices
        g.dimB g.k cs1 g.l2_reg g.w_mult bw0) }
  | Method.tncg =>
    { st with B := (tncg_iteration tnS st.B st.A g.Xc g.Xc_indptr g.Xc_indices
        g.dimB g.k cs1 g.l2_reg g.w_mult bw0) }

/-- The outer loop of run_poismf (poismf.c lines 420-518). stop gives the
value of the should_stop_procedure flag at its n-th poll; the flag is polled
at the top of each outer iteration (line 423) and again between the two
half-iterations (line 470), and an observed true jumps to cleanup. -/
def run_loop (cgS tnS : Fdata → Vec → Vec) (g : Args) (stop : ℕ → Bool) :
    ℕ → ℕ → RunState → RunState
  | 0, _, st => st
  | n + 1, c, st =>
    if stop c then st
    else
      let st1 := a_half cgS tnS g st
      if stop (c + 1) then st1
      else run_loop cgS tnS g stop n (c + 2) (b_half cgS tnS g st1)

/-- What run_poismf leaves behind: the status code, the two factor matrices,
the should_stop_procedure flag after the call (reset at line 527), and the
buffers released by the cleanup block. -/
structure RunResult where
  ret : ℕ
  A : Mat
  B : Mat
  flag : Bool
  freed : List Buffer

/-- run_poismf of poismf.c lines 368-529. allocFail tells which of the
requested heap allocations fail; any failure reaches throw_oom before the
first outer iteration, so the matrices are returned unchanged with status 1.
Otherwise the loop runs and the status is 0. Cleanup frees every buffer
pointer and resets the cancellation flag on every exit path. -/
def run_poismf (cgS tnS : Fdata → Vec → Vec) (g : Args)
    (allocFail : Buffer → Bool) (stop : ℕ → Bool) : RunResult :=
  if (requestedBuffers g.method g.w_mult).any allocFail then
    { ret := 1, A := g.A, B := g.B, flag := false, freed := allBuffers }
  else
    let st := run_loop cgS tnS g stop g.numiter 0
      { A := g.A, B := g.B, step := g.step_size }
    { ret := 0, A := st.A, B := st.B, flag := false, freed := allBuffers }

/-- Follows the spec, section 4.3: one projected-gradient inner update,
a to nonneg((a + step * gradAscent(a) - step * S) / (1 + 2 * l2 * step)),
where gradAscent accumulates x / dot(a, B[col]) * B[col] over the row's
nonzero columns. Stated from the spec's words for comparison with the code. -/
def spec_pg_update (B : Mat) (vals : Vec) (inds : List ℕ) (k : ℕ)
    (l2 : ℚ) (S : Vec) (step : ℚ) (a : Vec) : Vec :=
  let g := (List.zip vals inds).foldl
    (fun out p => daxpy (p.1 / ddot a (getRow B p.2)) (getRow B p.2) out)
    (zeros k)
  (dscal (1 / (1 + 2 * l2 * step)) (daxpy (-step) S (daxpy step g a))).map nonneg

/-- A stub external minimizer returning the empty row. -/
def nilSolver : Fdata → Vec → Vec := fun _ _ => []

/-- A probe external minimizer that returns the value slice it was handed,
exposing which value array the driver wired into the per-row context. -/
def xrSolver : Fdata → Vec → Vec := fun d _ => d.Xr

/-- The end-to-end scenario of spec section 8: dimA = dimB = 2, k = 1,
X the 2-by-2 identity, A = B = [[1],[1]], l1 = l2 = 0, weight 1,
step 1/10, method pg, maxupd 1, numiter 1. -/
def exArgs : Args :=
  { A := [[1], [1]], Xr := [1, 1], Xr_indptr := [0, 1, 2], Xr_indices := [0, 1]
    B := [[1], [1]], Xc := [1, 1], Xc_indptr := [0, 1, 2], Xc_indices := [0, 1]
    dimA := 2, dimB := 2, k := 1
    l2_reg := 0, l1_reg := 0, w_mult := 1, step_size := 1 / 10
    method := Method.pg, numiter := 1, maxupd := 1 }

/-- Every entry of a vector is nonnegative. -/
def vecNonneg (v : Vec) : Prop := ∀ x ∈ v, 0 ≤ x

/-- Every entry of a matrix is nonnegative. -/
def matNonneg (M : Mat) : Prop := ∀ r ∈ M, ∀ x ∈ r, 0 ≤ x

lemma daxpy_length (alpha : ℚ) (x y : Vec) :
    (daxpy alpha x y).length = min x.length y.length := by
  simp [daxpy]

lemma dscal_length (alpha : ℚ) (x : Vec) : (dscal alpha x).length = x.length := by
  simp [dscal]

lemma zeros_length (k : ℕ) : (zeros k).length = k := by
  simp [zeros]

lemma zeros_getD (k i : ℕ) : (zeros k).getD i 0 = 0 := by
  unfold zeros
  induction k generalizing i with
  | zero => simp
  | succ k ih =>
    cases i with
    | zero => simp
    | succ i => simp [List.replicate_succ]

lemma daxpy_getD (alpha : ℚ) :
    ∀ (x y : Vec), x.length = y.length →
      ∀ i, (daxpy alpha x y).getD i 0 = alpha * x.getD i 0 + y.getD i 0
  | [], [], _, i => by simp [daxpy]
  | [], _ :: _, h, i => by simp at h
  | _ :: _, [], h, i => by simp at h
  | x :: xs, y :: ys, h, 0 => by simp [daxpy]
  | x :: xs, y :: ys, h, (i + 1) => by
    simpa [daxpy] using daxpy_getD alpha xs ys (by simpa using h) i

lemma dscal_getD (alpha : ℚ) :
    ∀ (x : Vec) (i : ℕ), (dscal alpha x).getD i 0 = alpha * x.getD i 0
  | [], i => by simp [dscal]
  | x :: xs, 0 => by simp [dscal]
  | x :: xs, (i + 1) => by simpa [dscal] using dscal_getD alpha xs i

lemma vec_ext : ∀ {x y : Vec}, x.length = y.length →
    (∀ i, x.getD i 0 = y.getD i 0) → x = y
  | [], [], _, _ => rfl
  | [], _ :: _, h, _ => by simp at h
  | _ :: _, [], h, _ => by simp at h
  | a :: xs, b :: ys, h, he => by
    have h0 := he 0
    simp only [List.getD_cons_zero] at h0
    have := vec_ext (x := xs) (y := ys) (by simpa using h) (fun i => by
      simpa using he (i + 1))
    rw [h0, this]

lemma foldl_daxpy_length {α : Type} (c : α → ℚ) (v : α → Vec) (K : ℕ) :
    ∀ (l : List α) (init : Vec), init.length = K →
      (∀ p ∈ l, (v p).length = K) →
      (l.foldl (fun g p => daxpy (c p) (v p) g) init).length = K := by
  intro l
  induction l with
  | nil => intro init h _; simpa using h
  | cons p l ih =>
    intro init h hv
    simp only [List.foldl_cons]
    refine ih _ ?_ (fun q hq => hv q (List.mem_cons_of_mem _ hq))
    rw [daxpy_length, hv p (List.mem_cons_self _ _), h]
    simp

lemma foldl_daxpy_getD {α : Type} (c : α → ℚ) (v : α → Vec) (K : ℕ) :
    ∀ (l : List α) (init : Vec), init.length = K →
      (∀ p ∈ l, (v p).length = K) →
      ∀ i, (l.foldl (fun g p => daxpy (c p) (v p) g) init).getD i 0
        = init.getD i 0 + (l.map (fun p => c p * (v p).getD i 0)).sum := by
  intro l
  induction l with
  | nil => intro init _ _ i; simp
  | cons p l ih =>
    intro init h hv i
    have hvp := hv p (List.mem_cons_self _ _)
    have hlen : (daxpy (c p) (v p) init).length = K := by
      rw [daxpy_length, hvp, h]; simp
    have := ih (daxpy (c p) (v p) init) hlen
      (fun q hq => hv q (List.mem_cons_of_mem _ hq)) i
    simp only [List.foldl_cons, this, List.map_cons, List.sum_cons]
    rw [daxpy_getD (c p) (v p) init (by rw [hvp, h]) i]
    ring

lemma sum_map_neg {α : Type} (l : List α) (f : α → ℚ) :
    (l.map (fun x => -f x)).sum = -(l.map f).sum := by
  induction l with
  | nil => simp
  | cons a l ih => simp [ih]; ring

lemma getRow_length : ∀ (M : Mat) {k : ℕ}, (∀ r ∈ M, r.length = k) →
    ∀ {j : ℕ}, j < M.length → (getRow M j).length = k
  | [], _, _, j, hj => by simp at hj
  | r :: M, _, hM, 0, _ => hM r (List.mem_cons_self _ _)
  | r :: M, _, hM, (j + 1), hj => by
    simpa [getRow] using
      getRow_length M (fun q hq => hM q (List.mem_cons_of_mem _ hq))
        (by simpa using hj)

lemma getRow_nonneg : ∀ (M : Mat), matNonneg M → ∀ (i : ℕ), vecNonneg (getRow M i)
  | [], _, i => by intro x hx; simp [getRow] at hx
  | r :: M, h, 0 => fun x hx => h r (List.mem_cons_self _ _) x (by simpa [getRow] using hx)
  | r :: M, h, (i + 1) => fun x hx =>
    getRow_nonneg M (fun q hq => h q (List.mem_cons_of_mem _ hq)) i x
      (by simpa [getRow] using hx)

lemma getRow_range_map (f : ℕ → Vec) : ∀ (n i : ℕ), i < n →
    getRow ((List.range n).map f) i = f i := by
  intro n i h
  simp [getRow, List.getD_eq_getElem?_getD, List.getElem?_range h]

/-- C1: in the end-to-end scenario of spec section 8 (dimA = dimB = 2, k = 1,
identity X, A = B = [[1],[1]], l1 = l2 = 0, weight 1, step 1/10, maxupd 1),
the A half-iteration of the code yields a0 = 28/25 = 1.12 in every row,
because lines 438-442 scale the aggregate vector by -step twice, so the
inner update adds +step^2*S instead of -step*S. The update claimed by the
spec, a to nonneg((a + step*grad - step*S)/(1 + 2*l2*step)) with S the
column sum of B, yields 9/10 instead; neither equals the 1.0 the claim
asserts. -/
theorem pg_a_half_double_scaling :
    (a_half nilSolver nilSolver exArgs
        { A := [[1], [1]], B := [[1], [1]], step := 1 / 10 }).A
      = [[28 / 25], [28 / 25]]
    ∧ spec_pg_update [[1], [1]] [1] [0] 1 0 (sum_by_cols [[1], [1]] 2 1)
        (1 / 10) [1] = [9 / 10]
    ∧ sum_by_cols [[1], [1]] 2 1 = [2]
    ∧ ((28 / 25 : ℚ) ≠ 1 ∧ (9 / 10 : ℚ) ≠ 1) := by
  refine ⟨?_, ?_, ?_, by norm_num, by norm_num⟩
  · simp only [a_half, exArgs, pg_iteration, pg_update_row, calc_grad_pgd,
      sum_by_cols, daxpy, dscal, ddot, zeros, getRow, sliceVals, sliceInds, ptr,
      nilSolver,
      List.foldl_cons, List.foldl_nil, List.map_cons, List.map_nil,
      List.zipWith_cons_cons, List.zipWith_nil_left, List.zipWith_nil_right,
      List.zip_cons_cons, List.zip_nil_left, List.zip_nil_right,
      List.drop_succ_cons, List.drop_zero, List.take_succ_cons, List.take_zero,
      List.take_nil, List.getD_cons_succ, List.getD_cons_zero, List.getD_nil,
      List.replicate_succ, List.replicate_zero, List.sum_cons, List.sum_nil,
      Function.iterate_one, eq_self_iff_true, if_true, lt_self_iff_false,
      if_false, gt_iff_lt,
      show List.range 2 = [0, 1] from rfl,
      show (1 : ℕ) - 0 = 1 from rfl, show (2 : ℕ) - 1 = 1 from rfl]
    norm_num [nonneg]
  · norm_num [spec_pg_update, sum_by_cols, daxpy, dscal, ddot, nonneg, zeros,
      getRow, List.getD_cons_succ, List.getD_cons_zero, List.getD_nil,
      show List.range 2 = [0, 1] from rfl]
  · norm_num [sum_by_cols, daxpy, zeros, getRow, List.getD_cons_succ,
      List.getD_cons_zero, show List.range 2 = [0, 1] from rfl]

/-- C2: with X = [[1,2],[3,4]] (row-view values [1,2,3,4], column-view values
[1,3,2,4]) and a probe solver returning the value slice it is handed, the
conjugate-gradient B half-iteration of run_poismf hands each row of B the
row-oriented value array sliced by the column-oriented offsets (line 501
passes Xr), producing [[1,2],[3,4]] instead of the column view's per-row
values [[1,3],[2,4]]. -/
theorem cg_b_half_uses_row_values :
    (run_poismf xrSolver xrSolver
        { A := [[1, 1], [1, 1]], Xr := [1, 2, 3, 4], Xr_indptr := [0, 2, 4]
          Xr_indices := [0, 1, 0, 1]
          B := [[1, 1], [1, 1]], Xc := [1, 3, 2, 4], Xc_indptr := [0, 2, 4]
          Xc_indices := [0, 1, 0, 1]
          dimA := 2, dimB := 2, k := 2
          l2_reg := 0, l1_reg := 0, w_mult := 1, step_size := 1 / 10
          method := Method.cg, numiter := 1, maxupd := 1 }
        (fun _ => false) (fun _ => false)).B = [[1, 2], [3, 4]]
    ∧ sliceVals [1, 3, 2, 4] [0, 2, 4] 0 = [1, 3]
    ∧ sliceVals [1, 3, 2, 4] [0, 2, 4] 1 = [2, 4]
    ∧ ([[1, 2], [3, 4]] : Mat) ≠ [[1, 3], [2, 4]] := by
  refine ⟨by decide, by decide, by decide, by decide⟩

/-- C3: at the row a = [1] with S = [0], l2 = 1 and no observed nonzeros, the
spec value dot(S,a) + l2*dot(a,a) - w*sum is 1; calc_fun_single returns 1,
but the combined tncg evaluator calc_fun_and_grad returns 0 for the very
same input: it omits the l2*dot(a,a) term from the objective value (poismf.c
line 239 versus line 170), while still putting 2*l2*a into the gradient. -/
theorem calc_fun_and_grad_drops_l2 :
    calc_fun_single (fun q => q) [1]
        { B := [], Bsum := [0], Xr := [], X_ind := []
          l2_reg := 1, w_mult := 1, k := 1 } = 1
    ∧ (calc_fun_and_grad (fun q => q) [1]
        { B := [], Bsum := [0], Xr := [], X_ind := []
          l2_reg := 1, w_mult := 1, k := 1 }).1 = 0
    ∧ (1 : ℚ) ≠ 0 := by
  refine ⟨by norm_num [calc_fun_single, ddot], by norm_num [calc_fun_and_grad, ddot],
    by norm_num⟩

lemma slice_lt {inds : List ℕ} {indptr : List ℕ} {n : ℕ}
    (hind : ∀ j ∈ inds, j < n) {i : ℕ} :
    ∀ j ∈ sliceInds inds indptr i, j < n := by
  intro j hj
  exact hind j (List.drop_subset _ _ (List.take_subset _ _ hj))

/-- C4: for every row i of the free dimension, the weighted correction row of
adjustment_Bsum has length k and entries baseline + (w_mult - 1) times the
sum of the fixed-matrix entries over row i's observed nonzero columns; when
w_mult = 1 the row is exactly the baseline vector, and run_poismf requests
no Bsum_w allocation at all for w_mult = 1. -/
theorem adjustment_Bsum_correction (B : Mat) (Bsum : Vec)
    (Xr_indices Xr_indptr : List ℕ) (dimA k : ℕ) (w_mult : ℚ)
    (hB : ∀ r ∈ B, r.length = k) (hs : Bsum.length = k)
    (hind : ∀ j ∈ Xr_indices, j < B.length)
    (i : ℕ) (hi : i < dimA) :
    (getRow (adjustment_Bsum B Bsum Xr_indices Xr_indptr dimA k w_mult) i).length = k
    ∧ (∀ c, (getRow (adjustment_Bsum B Bsum Xr_indices Xr_indptr dimA k w_mult) i).getD c 0
        = Bsum.getD c 0 + (w_mult - 1) *
            ((sliceInds Xr_indices Xr_indptr i).map
              (fun j => (getRow B j).getD c 0)).sum)
    ∧ (w_mult = 1 →
        getRow (adjustment_Bsum B Bsum Xr_indices Xr_indptr dimA k w_mult) i = Bsum)
    ∧ (∀ m : Method, Buffer.Bsum_w ∉ requestedBuffers m 1) := by
  have hrow : getRow (adjustment_Bsum B Bsum Xr_indices Xr_indptr dimA k w_mult) i
      = daxpy 1 Bsum (dscal (w_mult - 1)
          ((sliceInds Xr_indices Xr_indptr i).foldl
            (fun acc j => daxpy 1 (getRow B j) acc) (zeros k))) := by
    unfold adjustment_Bsum
    exact getRow_range_map _ dimA i hi
  have hv : ∀ j ∈ sliceInds Xr_indices Xr_indptr i, (getRow B j).length = k :=
    fun j hj => getRow_length B hB (slice_lt hind j hj)
  have hacc_len : ((sliceInds Xr_indices Xr_indptr i).foldl
      (fun acc j => daxpy 1 (getRow B j) acc) (zeros k)).length = k :=
    foldl_daxpy_length (fun _ => (1 : ℚ)) (fun j => getRow B j) k _ (zeros k)
      (zeros_length k) hv
  have hacc : ∀ c, ((sliceInds Xr_indices Xr_indptr i).foldl
      (fun acc j => daxpy 1 (getRow B j) acc) (zeros k)).getD c 0
      = ((sliceInds Xr_indices Xr_indptr i).map
          (fun j => (getRow B j).getD c 0)).sum := by
    intro c
    have h := foldl_daxpy_getD (fun _ => (1 : ℚ)) (fun j => getRow B j) k
      (sliceInds Xr_indices Xr_indptr i) (zeros k) (zeros_length k) hv c
    rw [h, zeros_getD]
    simp
  have hlen : (getRow (adjustment_Bsum B Bsum Xr_indices Xr_indptr dimA k w_mult) i).length
      = k := by
    rw [hrow, daxpy_length, dscal_length, hacc_len, hs]
    simp
  have hpt : ∀ c, (getRow (adjustment_Bsum B Bsum Xr_indices Xr_indptr dimA k w_mult) i).getD c 0
      = Bsum.getD c 0 + (w_mult - 1) *
          ((sliceInds Xr_indices Xr_indptr i).map (fun j => (getRow B j).getD c 0)).sum := by
    intro c
    rw [hrow, daxpy_getD 1 Bsum _ (by rw [hs, dscal_length, hacc_len]) c,
      dscal_getD, hacc c]
    ring
  refine ⟨hlen, hpt, ?_, ?_⟩
  · intro hw
    refine vec_ext (by rw [hlen, hs]) ?_
    intro c
    rw [hpt c, hw]
    ring
  · intro m
    cases m <;> simp [requestedBuffers]

/-- C4 witness: correction entry for row 0 of a concrete weighted input,
baseline 5 plus (3 - 1) times the single observed fixed-matrix entry 2. -/
theorem adjustment_Bsum_correction_witness :
    (getRow (adjustment_Bsum [[2], [3]] [5] [0, 1] [0, 1, 2] 2 1 3) 0).getD 0 0 = 9 := by
  have h := adjustment_Bsum_correction [[2], [3]] [5] [0, 1] [0, 1, 2] 2 1 3
    (by decide) rfl (by decide) 0 (by decide)
  rw [h.2.1 0]
  norm_num [sliceInds, ptr, getRow, List.getD_cons_zero]

lemma foldl_grad_length (B : Mat) (a : Vec) (K : ℕ) (l : List (ℚ × ℕ))
    (init : Vec) (hinit : init.length = K)
    (hrows : ∀ p ∈ l, (getRow B p.2).length = K) :
    (l.foldl (fun g p => daxpy (-p.1 / ddot a (getRow B p.2)) (getRow B p.2) g)
      init).length = K :=
  foldl_daxpy_length (fun p : ℚ × ℕ => -p.1 / ddot a (getRow B p.2))
    (fun p : ℚ × ℕ => getRow B p.2) K l init hinit hrows

lemma foldl_grad_getD (B : Mat) (a : Vec) (K : ℕ) (l : List (ℚ × ℕ))
    (init : Vec) (hinit : init.length = K)
    (hrows : ∀ p ∈ l, (getRow B p.2).length = K) (c : ℕ) :
    (l.foldl (fun g p => daxpy (-p.1 / ddot a (getRow B p.2)) (getRow B p.2) g)
        init).getD c 0
      = init.getD c 0
        - (l.map (fun p => p.1 / ddot a (getRow B p.2) * (getRow B p.2).getD c 0)).sum := by
  have h := foldl_daxpy_getD (fun p : ℚ × ℕ => -p.1 / ddot a (getRow B p.2))
    (fun p : ℚ × ℕ => getRow B p.2) K l init hinit hrows c
  rw [h]
  have h2 : (l.map (fun p => -p.1 / ddot a (getRow B p.2) * (getRow B p.2).getD c 0))
      = l.map (fun p => -(p.1 / ddot a (getRow B p.2) * (getRow B p.2).getD c 0)) := by
    simp only [neg_div, neg_mul]
  rw [h2, sum_map_neg]
  ring

/-- C6: under row-length side conditions and strictly positive predicted dot
products, each gradient evaluator returns exactly the spec formula
S + 2*l2*a - weight * sum over nonzeros of (x / dot(a, B[col])) * B[col],
entry by entry: calc_grad_single (the callback cg_iteration selects when
w_mult = 1) with weight 1, calc_grad_single_w and the calc_fun_and_grad
gradient with weight w_mult. -/
theorem grad_evaluators_formula (lg : ℚ → ℚ) (a : Vec) (d : Fdata)
    (ha : a.length = d.k) (hs : d.Bsum.length = d.k)
    (hB : ∀ r ∈ d.B, r.length = d.k)
    (hind : ∀ j ∈ d.X_ind, j < d.B.length)
    (_hpos : ∀ p ∈ List.zip d.Xr d.X_ind, 0 < ddot a (getRow d.B p.2)) :
    (d.w_mult = 1 → (calc_grad_single a d).length = d.k ∧ ∀ c,
        (calc_grad_single a d).getD c 0
          = d.Bsum.getD c 0 + 2 * d.l2_reg * a.getD c 0
            - d.w_mult * ((List.zip d.Xr d.X_ind).map
                (fun p => p.1 / ddot a (getRow d.B p.2)
                  * (getRow d.B p.2).getD c 0)).sum)
    ∧ ((calc_grad_single_w a d).length = d.k ∧ ∀ c,
        (calc_grad_single_w a d).getD c 0
          = d.Bsum.getD c 0 + 2 * d.l2_reg * a.getD c 0
            - d.w_mult * ((List.zip d.Xr d.X_ind).map
                (fun p => p.1 / ddot a (getRow d.B p.2)
                  * (getRow d.B p.2).getD c 0)).sum)
    ∧ (((calc_fun_and_grad lg a d).2).length = d.k ∧ ∀ c,
        ((calc_fun_and_grad lg a d).2).getD c 0
          = d.Bsum.getD c 0 + 2 * d.l2_reg * a.getD c 0
            - d.w_mult * ((List.zip d.Xr d.X_ind).map
                (fun p => p.1 / ddot a (getRow d.B p.2)
                  * (getRow d.B p.2).getD c 0)).sum) := by
  have hrows : ∀ p ∈ List.zip d.Xr d.X_ind, (getRow d.B p.2).length = d.k := by
    intro p hp
    exact getRow_length d.B hB (hind p.2 (List.of_mem_zip hp).2)
  have hinit1 : (daxpy (2 * d.l2_reg) a d.Bsum).length = d.k := by
    rw [daxpy_length, ha, hs]; simp
  constructor
  · intro hw
    constructor
    · exact foldl_grad_length d.B a d.k _ _ hinit1 hrows
    · intro c
      unfold calc_grad_single
      rw [foldl_grad_getD d.B a d.k _ _ hinit1 hrows c,
        daxpy_getD _ _ _ (by rw [ha, hs]) c, hw]
      ring
  constructor
  · have hg0 : ((List.zip d.Xr d.X_ind).foldl
        (fun g p => daxpy (-p.1 / ddot a (getRow d.B p.2)) (getRow d.B p.2) g)
        (zeros d.k)).length = d.k :=
      foldl_grad_length d.B a d.k _ _ (zeros_length d.k) hrows
    constructor
    · unfold calc_grad_single_w
      rw [daxpy_length, daxpy_length, dscal_length, hg0, ha, hs]
      simp
    · intro c
      unfold calc_grad_single_w
      rw [daxpy_getD _ _ _ (by rw [daxpy_length, dscal_length, hg0, ha, hs]; simp) c,
        daxpy_getD _ _ _ (by rw [dscal_length, hg0, hs]) c, dscal_getD,
        foldl_grad_getD d.B a d.k _ _ (zeros_length d.k) hrows c, zeros_getD]
      ring
  · have hg0 : ((List.zip d.Xr d.X_ind).foldl
        (fun g p => daxpy (-p.1 / ddot a (getRow d.B p.2)) (getRow d.B p.2) g)
        (zeros d.k)).length = d.k :=
      foldl_grad_length d.B a d.k _ _ (zeros_length d.k) hrows
    have hg1 : (if d.w_mult = 1
        then ((List.zip d.Xr d.X_ind).foldl
          (fun g p => daxpy (-p.1 / ddot a (getRow d.B p.2)) (getRow d.B p.2) g)
          (zeros d.k))
        else dscal d.w_mult ((List.zip d.Xr d.X_ind).foldl
          (fun g p => daxpy (-p.1 / ddot a (getRow d.B p.2)) (getRow d.B p.2) g)
          (zeros d.k))).length = d.k := by
      split
      · exact hg0
      · rw [dscal_length, hg0]
    have hg1v : ∀ c, (if d.w_mult = 1
        then ((List.zip d.Xr d.X_ind).foldl
          (fun g p => daxpy (-p.1 / ddot a (getRow d.B p.2)) (getRow d.B p.2) g)
          (zeros d.k))
        else dscal d.w_mult ((List.zip d.Xr d.X_ind).foldl
          (fun g p => daxpy (-p.1 / ddot a (getRow d.B p.2)) (getRow d.B p.2) g)
          (zeros d.k))).getD c 0
        = d.w_mult * (0 - ((List.zip d.Xr d.X_ind).map
            (fun p => p.1 / ddot a (getRow d.B p.2)
              * (getRow d.B p.2).getD c 0)).sum) := by
      intro c
      split
      · rename_i hw
        rw [foldl_grad_getD d.B a d.k _ _ (zeros_length d.k) hrows c, zeros_getD, hw]
        ring
      · rw [dscal_getD, foldl_grad_getD d.B a d.k _ _ (zeros_length d.k) hrows c,
          zeros_getD]
    constructor
    · unfold calc_fun_and_grad
      rw [daxpy_length, daxpy_length, hg1, ha, hs]
      simp
    · intro c
      unfold calc_fun_and_grad
      rw [daxpy_getD _ _ _ (by rw [daxpy_length, hg1, hs, ha]; simp) c,
        daxpy_getD _ _ _ (by rw [hg1, hs]) c, hg1v c]
      ring

/-- C6 witness: the weighted gradient at a = [1], B = [[1]], S = [1], x = 2,
l2 = 1, w = 2 equals 1 + 2*1*1 - 2*(2/1)*1 = -1, with the positive-dot
hypothesis holding since dot(a, B[0]) = 1. -/
theorem grad_evaluators_formula_witness :
    (calc_grad_single_w [1]
        { B := [[1]], Bsum := [1], Xr := [2], X_ind := [0]
          l2_reg := 1, w_mult := 2, k := 1 }).getD 0 0 = -1 := by
  have h := grad_evaluators_formula (fun q => q) [1]
    { B := [[1]], Bsum := [1], Xr := [2], X_ind := [0]
      l2_reg := 1, w_mult := 2, k := 1 }
    rfl rfl (by decide) (by decide)
    (by
      intro p hp
      have := List.of_mem_zip hp
      rcases this with ⟨h1, h2⟩
      simp only [List.mem_singleton] at h1 h2
      rw [h2]
      norm_num [ddot, getRow])
  rw [h.2.1.2 0]
  norm_num [ddot, getRow, List.getD_cons_zero]

lemma a_half_B (cgS tnS : Fdata → Vec → Vec) (g : Args) (st : RunState) :
    (a_half cgS tnS g st).B = st.B := by
  unfold a_half
  cases g.method <;> rfl

lemma a_half_step (cgS tnS : Fdata → Vec → Vec) (g : Args) (st : RunState) :
    (a_half cgS tnS g st).step = st.step := by
  unfold a_half
  cases g.method <;> rfl

lemma b_half_A (cgS tnS : Fdata → Vec → Vec) (g : Args) (st : RunState) :
    (b_half cgS tnS g st).A = st.A := by
  unfold b_half
  cases g.method <;> rfl

lemma b_half_step_pg (cgS tnS : Fdata → Vec → Vec) (g : Args) (st : RunState)
    (h : g.method = Method.pg) :
    (b_half cgS tnS g st).step = st.step * (1 / 2) := by
  unfold b_half
  rw [h]

/-- C7: for the projected-gradient method the step size is invariant across
the A half-iteration (so both half-iterations of an outer iteration share
one value), and after n outer iterations of the driver loop it has been
halved exactly n times: the value used during the n-th iteration is the
initial step times (1/2)^n. -/
theorem pg_step_size_decay (cgS tnS : Fdata → Vec → Vec) (g : Args)
    (h : g.method = Method.pg) :
    (∀ st : RunState, (a_half cgS tnS g st).step = st.step)
    ∧ ∀ (n c : ℕ) (st : RunState),
        (run_loop cgS tnS g (fun _ => false) n c st).step
          = st.step * (1 / 2) ^ n := by
  refine ⟨a_half_step cgS tnS g, ?_⟩
  intro n
  induction n with
  | zero => intro c st; simp [run_loop]
  | succ n ih =>
    intro c st
    show (run_loop cgS tnS g (fun _ => false) (n + 1) c st).step = _
    rw [run_loop]
    simp only [Bool.false_eq_true, if_false]
    rw [ih, b_half_step_pg cgS tnS g _ h, a_half_step]
    ring

/-- C7 witness: three pg iterations on the spec section 8 scenario divide the
initial step 1/10 by 8. -/
theorem pg_step_size_decay_witness :
    (run_loop nilSolver nilSolver exArgs (fun _ => false) 3 0
      { A := [[1], [1]], B := [[1], [1]], step := 1 / 10 }).step
      = (1 / 10) * (1 / 2) ^ 3 :=
  (pg_step_size_decay nilSolver nilSolver exArgs rfl).2 3 0 _

/-- C8: the cancellation flag is false after every run_poismf exit; when the
allocations succeed and the flag is observed set at the first poll, the call
returns status 0 with both matrices exactly as supplied; and when the flag
first appears at the poll between the two half-iterations, the call returns
status 0 with A holding the completed A half-iteration and B untouched. -/
theorem run_poismf_cancel (cgS tnS : Fdata → Vec → Vec) (g : Args)
    (af : Buffer → Bool) (stop : ℕ → Bool) :
    (run_poismf cgS tnS g af stop).flag = false
    ∧ ((∀ b ∈ requestedBuffers g.method g.w_mult, af b = false) → stop 0 = true →
        (run_poismf cgS tnS g af stop).ret = 0
        ∧ (run_poismf cgS tnS g af stop).A = g.A
        ∧ (run_poismf cgS tnS g af stop).B = g.B)
    ∧ ((∀ b ∈ requestedBuffers g.method g.w_mult, af b = false) →
        ∀ m, g.numiter = m + 1 → stop 0 = false → stop 1 = true →
        (run_poismf cgS tnS g af stop).ret = 0
        ∧ (run_poismf cgS tnS g af stop).A
            = (a_half cgS tnS g { A := g.A, B := g.B, step := g.step_size }).A
        ∧ (run_poismf cgS tnS g af stop).B = g.B) := by
  refine ⟨?_, ?_, ?_⟩
  · unfold run_poismf
    split <;> rfl
  · intro hok h0
    have hany : (requestedBuffers g.method g.w_mult).any af = false := by
      rw [List.any_eq_false]
      intro b hb
      simp [hok b hb]
    unfold run_poismf
    rw [hany]
    simp only [Bool.false_eq_true, if_false]
    cases hn : g.numiter with
    | zero => exact ⟨by trivial, by trivial, by trivial⟩
    | succ m =>
      rw [run_loop, h0]
      exact ⟨by trivial, by trivial, by trivial⟩
  · intro hok m hm h0 h1
    have hany : (requestedBuffers g.method g.w_mult).any af = false := by
      rw [List.any_eq_false]
      intro b hb
      simp [hok b hb]
    unfold run_poismf
    rw [hany]
    simp only [Bool.false_eq_true, if_false]
    rw [hm, run_loop, h0]
    simp only [Bool.false_eq_true, if_false, h1, if_true]
    exact ⟨by trivial, by trivial, a_half_B cgS tnS g _⟩

/-- C8 witness: with the flag already set at the first poll, the scenario run
returns its matrices untouched. -/
theorem run_poismf_cancel_witness :
    (run_poismf nilSolver nilSolver exArgs (fun _ => false) (fun _ => true)).A
      = [[1], [1]] :=
  ((run_poismf_cancel nilSolver nilSolver exArgs (fun _ => false)
    (fun _ => true)).2.1 (by decide) rfl).2.1

/-- C9: if any requested allocation fails, run_poismf returns status 1 with
both factor matrices exactly as supplied and every requested buffer among
the freed ones; if every requested allocation succeeds it returns status 0. -/
theorem run_poismf_alloc_failure (cgS tnS : Fdata → Vec → Vec) (g : Args)
    (af : Buffer → Bool) (stop : ℕ → Bool) :
    ((∃ b ∈ requestedBuffers g.method g.w_mult, af b = true) →
        (run_poismf cgS tnS g af stop).ret = 1
        ∧ (run_poismf cgS tnS g af stop).A = g.A
        ∧ (run_poismf cgS tnS g af stop).B = g.B
        ∧ ∀ b ∈ requestedBuffers g.method g.w_mult,
            b ∈ (run_poismf cgS tnS g af stop).freed)
    ∧ ((∀ b ∈ requestedBuffers g.method g.w_mult, af b = false) →
        (run_poismf cgS tnS g af stop).ret = 0) := by
  constructor
  · intro hex
    have hany : (requestedBuffers g.method g.w_mult).any af = true := by
      rw [List.any_eq_true]
      rcases hex with ⟨b, hb, hab⟩
      exact ⟨b, hb, hab⟩
    unfold run_poismf
    rw [hany]
    refine ⟨rfl, rfl, rfl, ?_⟩
    intro b _
    cases b <;> simp [allBuffers]
  · intro hok
    have hany : (requestedBuffers g.method g.w_mult).any af = false := by
      rw [List.any_eq_false]
      intro b hb
      simp [hok b hb]
    unfold run_poismf
    rw [hany]
    rfl

/-- C9 witness: failing the cnst_sum allocation on the scenario makes the run
report status 1. -/
theorem run_poismf_alloc_failure_witness :
    (run_poismf nilSolver nilSolver exArgs
      (fun b => b = Buffer.cnst_sum) (fun _ => false)).ret = 1 :=
  ((run_poismf_alloc_failure nilSolver nilSolver exArgs
      (fun b => decide (b = Buffer.cnst_sum)) (fun _ => false)).1
    ⟨Buffer.cnst_sum, by decide, by decide⟩).1

/-- C10: with numiter = 0 and all allocations succeeding, run_poismf returns
status 0 and both factor matrices exactly as supplied: the outer loop body
never executes. -/
theorem run_poismf_numiter_zero (cgS tnS : Fdata → Vec → Vec) (g : Args)
    (af : Buffer → Bool) (stop : ℕ → Bool)
    (h0 : g.numiter = 0)
    (hok : ∀ b ∈ requestedBuffers g.method g.w_mult, af b = false) :
    (run_poismf cgS tnS g af stop).ret = 0
    ∧ (run_poismf cgS tnS g af stop).A = g.A
    ∧ (run_poismf cgS tnS g af stop).B = g.B := by
  have hany : (requestedBuffers g.method g.w_mult).any af = false := by
    rw [List.any_eq_false]
    intro b hb
    simp [hok b hb]
  unfold run_poismf
  rw [hany]
  simp only [Bool.false_eq_true, if_false]
  rw [h0, run_loop]
  exact ⟨by trivial, by trivial, by trivial⟩

/-- C10 witness: the scenario with numiter set to 0 returns B untouched. -/
theorem run_poismf_numiter_zero_witness :
    (run_poismf nilSolver nilSolver { exArgs with numiter := 0 }
      (fun _ => false) (fun _ => false)).B = [[1], [1]] :=
  (run_poismf_numiter_zero nilSolver nilSolver { exArgs with numiter := 0 }
    (fun _ => false) (fun _ => false) rfl (by decide)).2.2

lemma nonneg_nonneg (x : ℚ) : 0 ≤ nonneg x := by
  unfold nonneg
  split
  · linarith
  · exact le_refl 0

lemma vecNonneg_map_nonneg (l : Vec) : vecNonneg (l.map nonneg) := by
  intro x hx
  rcases List.mem_map.1 hx with ⟨y, _, rfl⟩
  exact nonneg_nonneg y

lemma pg_update_row_nonneg (B : Mat) (vals : Vec) (inds : List ℕ) (k : ℕ)
    (cd : ℚ) (Bs : Vec) (st : ℚ) (a : Vec) :
    vecNonneg (pg_update_row B vals inds k cd Bs st a) :=
  vecNonneg_map_nonneg _

lemma iterate_pg_nonneg (B : Mat) (vals : Vec) (inds : List ℕ) (k : ℕ)
    (cd : ℚ) (Bs : Vec) (st : ℚ) (n : ℕ) (a : Vec) (ha : vecNonneg a) :
    vecNonneg (Nat.iterate (pg_update_row B vals inds k cd Bs st) n a) := by
  cases n with
  | zero => simpa using ha
  | succ n =>
    rw [Function.iterate_succ_apply']
    exact pg_update_row_nonneg B vals inds k cd Bs st _

lemma pg_iteration_nonneg (A B : Mat) (Xr : Vec) (indptr indices : List ℕ)
    (dimA k : ℕ) (cd : ℚ) (cs : Vec) (bw : Mat) (st w : ℚ) (mu : ℕ)
    (hA : matNonneg A) :
    matNonneg (pg_iteration A B Xr indptr indices dimA k cd cs bw st w mu) := by
  intro r hr
  simp only [pg_iteration, List.mem_map, List.mem_range] at hr
  rcases hr with ⟨ia, _, rfl⟩
  exact iterate_pg_nonneg B _ _ k cd _ _ mu _ (getRow_nonneg A hA ia)

lemma cg_iteration_nonneg (solver : Fdata → Vec → Vec)
    (hsol : ∀ d a, vecNonneg (solver d a))
    (A B : Mat) (Xr : Vec) (indptr indices : List ℕ)
    (dimA k : ℕ) (cs : Vec) (l2 w : ℚ) (bw : Mat) :
    matNonneg (cg_iteration solver A B Xr indptr indices dimA k cs l2 w bw) := by
  intro r hr
  simp only [cg_iteration, List.mem_map, List.mem_range] at hr
  rcases hr with ⟨ia, _, rfl⟩
  exact hsol _ _

lemma tncg_iteration_nonneg (solver : Fdata → Vec → Vec)
    (hsol : ∀ d a, vecNonneg (solver d a))
    (A B : Mat) (Xr : Vec) (indptr indices : List ℕ)
    (dimA k : ℕ) (cs : Vec) (l2 w : ℚ) (bw : Mat) :
    matNonneg (tncg_iteration solver A B Xr indptr indices dimA k cs l2 w bw) := by
  intro r hr
  simp only [tncg_iteration, List.mem_map, List.mem_range] at hr
  rcases hr with ⟨ia, _, rfl⟩
  exact hsol _ _

lemma a_half_nonneg (cgS tnS : Fdata → Vec → Vec) (g : Args) (st : RunState)
    (hcg : ∀ d a, vecNonneg (cgS d a)) (htn : ∀ d a, vecNonneg (tnS d a))
    (hA : matNonneg st.A) (hB : matNonneg st.B) :
    matNonneg (a_half cgS tnS g st).A ∧ matNonneg (a_half cgS tnS g st).B := by
  unfold a_half
  cases g.method with
  | pg => exact ⟨pg_iteration_nonneg _ _ _ _ _ _ _ _ _ _ _ _ _ hA, hB⟩
  | cg => exact ⟨cg_iteration_nonneg cgS hcg _ _ _ _ _ _ _ _ _ _ _, hB⟩
  | tncg => exact ⟨tncg_iteration_nonneg tnS htn _ _ _ _ _ _ _ _ _ _ _, hB⟩

lemma b_half_nonneg (cgS tnS : Fdata → Vec → Vec) (g : Args) (st : RunState)
    (hcg : ∀ d a, vecNonneg (cgS d a)) (htn : ∀ d a, vecNonneg (tnS d a))
    (hA : matNonneg st.A) (hB : matNonneg st.B) :
    matNonneg (b_half cgS tnS g st).A ∧ matNonneg (b_half cgS tnS g st).B := by
  unfold b_half
  cases g.method with
  | pg => exact ⟨hA, pg_iteration_nonneg _ _ _ _ _ _ _ _ _ _ _ _ _ hB⟩
  | cg => exact ⟨hA, cg_iteration_nonneg cgS hcg _ _ _ _ _ _ _ _ _ _ _⟩
  | tncg => exact ⟨hA, tncg_iteration_nonneg tnS htn _ _ _ _ _ _ _ _ _ _ _⟩

lemma run_loop_nonneg (cgS tnS : Fdata → Vec → Vec) (g : Args) (stop : ℕ → Bool)
    (hcg : ∀ d a, vecNonneg (cgS d a)) (htn : ∀ d a, vecNonneg (tnS d a)) :
    ∀ (n c : ℕ) (st : RunState), matNonneg st.A → matNonneg st.B →
      matNonneg (run_loop cgS tnS g stop n c st).A
      ∧ matNonneg (run_loop cgS tnS g stop n c st).B := by
  intro n
  induction n with
  | zero => intro c st hA hB; exact ⟨hA, hB⟩
  | succ n ih =>
    intro c st hA hB
    rw [run_loop]
    split
    · exact ⟨hA, hB⟩
    · have h1 := a_half_nonneg cgS tnS g st hcg htn hA hB
      split
      · exact h1
      · have h2 := b_half_nonneg cgS tnS g _ hcg htn h1.1 h1.2
        exact ih _ _ h2.1 h2.2

/-- C5: for any external minimizers that keep their output rows nonnegative
(the bound contract of minimize_nonneg_cg and tnc in the spec), both
half-iterations preserve entrywise nonnegativity of A and B for all three
methods (the pg method through the nonneg clip applied at every inner
update), and hence so does every run_poismf call, whatever the cancellation
and allocation behavior. -/
theorem run_poismf_nonneg_invariant (cgS tnS : Fdata → Vec → Vec) (g : Args)
    (hcg : ∀ d a, vecNonneg (cgS d a)) (htn : ∀ d a, vecNonneg (tnS d a)) :
    (∀ st : RunState, matNonneg st.A → matNonneg st.B →
        (matNonneg (a_half cgS tnS g st).A ∧ matNonneg (a_half cgS tnS g st).B)
        ∧ (matNonneg (b_half cgS tnS g st).A ∧ matNonneg (b_half cgS tnS g st).B))
    ∧ ∀ (af : Buffer → Bool) (stop : ℕ → Bool),
        matNonneg g.A → matNonneg g.B →
        matNonneg (run_poismf cgS tnS g af stop).A
        ∧ matNonneg (run_poismf cgS tnS g af stop).B := by
  constructor
  · intro st hA hB
    exact ⟨a_half_nonneg cgS tnS g st hcg htn hA hB,
      b_half_nonneg cgS tnS g st hcg htn hA hB⟩
  · intro af stop hA hB
    unfold run_poismf
    split
    · exact ⟨hA, hB⟩
    · exact run_loop_nonneg cgS tnS g stop hcg htn g.numiter 0 _ hA hB

/-- C5 witness: the spec section 8 pg scenario keeps A entrywise nonnegative
end to end, instantiating the external minimizers with the empty-row stub. -/
theorem run_poismf_nonneg_invariant_witness :
    matNonneg (run_poismf nilSolver nilSolver exArgs
      (fun _ => false) (fun _ => false)).A := by
  have h := (run_poismf_nonneg_invariant nilSolver nilSolver exArgs
    (by intro d a x hx; simp [nilSolver] at hx)
    (by intro d a x hx; simp [nilSolver] at hx)).2
    (fun _ => false) (fun _ => false)
    (by
      intro r hr x hx
      simp only [exArgs, List.mem_cons, List.not_mem_nil, or_false] at hr
      rcases hr with rfl | rfl <;>
        simp only [List.mem_cons, List.not_mem_nil, or_false] at hx <;>
          rw [hx] <;> norm_num)
    (by
      intro r hr x hx
      simp only [exArgs, List.mem_cons, List.not_mem_nil, or_false] at hr
      rcases hr with rfl | rfl <;>
        simp only [List.mem_cons, List.not_mem_nil, or_false] at hx <;>
          rw [hx] <;> norm_num)
  exact h.1

end Poismf
